import Mathlib

/-!
# Verification of the pvgmsh boundary-to-mesh adapter

Shallow embedding of `src/pvgmsh/__init__.py`.  The module drives the
external gmsh engine through a fixed sequence of API calls
(`gmsh.initialize`, `gmsh.option.set_number`, `gmsh.model.geo.add_point`,
`add_line`, `add_curve_loop`, `add_plane_surface`, `synchronize`,
`gmsh.model.mesh.generate`, extraction via
`fileio.from_meshio(extract_to_meshio())`, `gmsh.clear`, `gmsh.finalize`).
The engine is external and opaque, so it is modelled as an oracle: a
predicate saying which calls succeed, plus the mesh its extraction bridge
yields.  The adapter itself is embedded as the list of calls it issues, in
the source's statement order, together with the Python-level exceptions the
body itself can raise (numpy `TypeError` from the default-size expression,
`IndexError` from topology-array access).  The semantics of a call sequence
is Python's: statements run in order and the first exception aborts the
rest of the function body.
-/

/-- One call to the external gmsh engine, as issued by the adapter.
`init` stands for `gmsh.initialize()`, `setNumber` for
`gmsh.option.set_number`, the `add*` constructors for the
`gmsh.model.geo.add_*` entity registrations, `synchronize` for
`gmsh.model.geo.synchronize()`, `generate` for
`gmsh.model.mesh.generate(dim)`, `extract` for the
`fileio.from_meshio(extract_to_meshio())` extraction bridge, `clear` for
`gmsh.clear()` and `finalize` for `gmsh.finalize()`.  Coordinates and the
mesh-size hint are rationals standing for the Python floats. -/
inductive Event : Type where
  | init : Event
  | setNumber (optName : String) (value : ℕ) : Event
  | addPoint (x y z size : ℚ) (tag : ℕ) : Event
  | addLine (a b tag : ℕ) : Event
  | addCurveLoop (curveTags : List ℕ) (tag : ℕ) : Event
  | addPlaneSurface (loopTags : List ℕ) (tag : ℕ) : Event
  | synchronize : Event
  | generate (dim : ℕ) : Event
  | extract : Event
  | clear : Event
  | finalize : Event
deriving DecidableEq

/-- `FRONTAL_DELAUNAY_2D = 6`, the module-level algorithm constant. -/
def FRONTAL_DELAUNAY_2D : ℕ := 6

/-- One step of the adapter body: either an engine call, or an exception
raised by the Python body itself before any further engine call (the
`IndexError` from an out-of-range topology access). -/
inductive Step : Type where
  | call (e : Event) : Step
  | pyError (msg : String) : Step
deriving DecidableEq

/-- The event a step issues, if it is a call. -/
def Step.toEvent? : Step → Option Event
  | .call e => some e
  | .pyError _ => none

/-- The output container (`pyvista.UnstructuredGrid` as produced by
`fileio.from_meshio`): mesh vertices, cell connectivity, and the names of
any per-point/per-cell data arrays attached to it. -/
structure Mesh : Type where
  meshPoints : List (ℚ × ℚ × ℚ)
  meshCells : List (List ℕ)
  dataArrays : List String
deriving DecidableEq

/-- Oracle for the external gmsh engine: which calls succeed (a failing
call raises a Python exception inside the adapter body), and the mesh the
extraction bridge produces when the `extract` call succeeds. -/
structure Engine : Type where
  ok : Event → Bool
  extraction : Mesh

/-- Run a step list under Python semantics: steps execute in order; a call
the engine rejects, or a `pyError`, aborts the rest of the body.  Returns
the calls actually issued to the engine (a rejected call was still issued,
so it appears in the trace) and the propagated error, if any. -/
def runSteps (eng : Engine) : List Step → List Event × Option String
  | [] => ([], none)
  | Step.pyError msg :: _ => ([], some msg)
  | Step.call e :: rest =>
    if eng.ok e then (e :: (runSteps eng rest).1, (runSteps eng rest).2)
    else ([e], some "gmsh exception")

/-- The `edge_source` argument: an ordered point set plus the flat cell
array `edge_source.lines`, which encodes polyline runs as
`[count, i0, ..., i_(count-1), count, j0, ...]`. -/
structure Boundary : Type where
  points : List (ℚ × ℚ × ℚ)
  lines : List ℕ

/-- Axis-aligned bounding box, in pyvista's `bounds` order
`(xmin, xmax, ymin, ymax, zmin, zmax)`. -/
structure Box : Type where
  xmin : ℚ
  xmax : ℚ
  ymin : ℚ
  ymax : ℚ
  zmin : ℚ
  zmax : ℚ
deriving DecidableEq

/-- `edge_source.bounds`: componentwise min/max over the point set
(pyvista computes the axis-aligned bounding box of the points; the value
for an empty point set is never consulted by the claims). -/
def bounds : List (ℚ × ℚ × ℚ) → Box
  | [] => ⟨0, 0, 0, 0, 0, 0⟩
  | p :: ps =>
    ps.foldl
      (fun bx q =>
        ⟨min bx.xmin q.1, max bx.xmax q.1,
         min bx.ymin q.2.1, max bx.ymax q.2.1,
         min bx.zmin q.2.2, max bx.zmax q.2.2⟩)
      ⟨p.1, p.1, p.2.1, p.2.1, p.2.2, p.2.2⟩

/-- A Python value passed positionally to `numpy.max`: either a float
(every `np.abs(bounds[i] - bounds[j])` is a numpy float) or `None` (the
defaults of the `axis` and `out` parameters). -/
inductive PyVal : Type where
  | pyfloat (q : ℚ) : PyVal
  | pynone : PyVal
deriving DecidableEq

/-- `numpy.max(a, axis, out)` on a scalar first argument, with the second
and third POSITIONAL arguments binding to numpy's `axis` and `out`
parameters.  numpy normalises `axis` through `operator.index`, which
rejects any float with `TypeError`; with `axis=None` an `out` that is not
an ndarray is likewise rejected; `np.max(scalar)` returns the scalar. -/
def npMax (a axis out : PyVal) : Except String ℚ :=
  match axis with
  | .pyfloat _ =>
    .error "TypeError: numpy float64 object cannot be interpreted as an integer"
  | .pynone =>
    match out with
    | .pyfloat _ => .error "TypeError: output must be an array"
    | .pynone =>
      match a with
      | .pyfloat q => .ok q
      | .pynone => .error "TypeError: unsupported operand"

/-- Lines 77-82 of the source: `target_size` stays as given when not
`None`; otherwise it is the value of
`np.max(np.abs(bounds[1]-bounds[0]), np.abs(bounds[3]-bounds[2]),
np.abs(bounds[5]-bounds[4]))`, where the second and third arguments are
passed positionally. -/
def resolveTargetSize (target_size : Option ℚ) (bx : Box) : Except String ℚ :=
  match target_size with
  | some t => .ok t
  | none =>
    npMax (.pyfloat |bx.xmax - bx.xmin|) (.pyfloat |bx.ymax - bx.ymin|)
      (.pyfloat |bx.zmax - bx.zmin|)

/-- The point registrations of lines 84-85:
`for i, point in enumerate(edge_source.points):
gmsh.model.geo.add_point(point[0], point[1], point[2], target_size, i + 1)`. -/
def pointEvents (pts : List (ℚ × ℚ × ℚ)) (ts : ℚ) : List Event :=
  pts.enum.map fun ip => Event.addPoint ip.2.1 ip.2.2.1 ip.2.2.2 ts (ip.1 + 1)

/-- Lines 84-85 as body steps: each point registration is one engine call. -/
def pointSteps (pts : List (ℚ × ℚ × ℚ)) (ts : ℚ) : List Step :=
  (pointEvents pts ts).map Step.call

/-- Iteration `i` of the line loop (line 89):
`gmsh.model.geo.add_line(lines[i + 1] + 1, lines[i + 2] + 1, i + 1)`;
an out-of-range access raises `IndexError` before the call is issued. -/
def lineStepFor (lns : List ℕ) (i : ℕ) : Step :=
  match lns[i + 1]?, lns[i + 2]? with
  | some a, some b => Step.call (Event.addLine (a + 1) (b + 1) (i + 1))
  | _, _ => Step.pyError "IndexError: list index out of range"

/-- Lines 87-89: `lines = edge_source.lines; for i in range(lines[0] - 1): ...`.
Evaluating `lines[0]` on an empty cell array raises `IndexError` before the
loop starts. -/
def lineSteps (lns : List ℕ) : List Step :=
  match lns[0]? with
  | none => [Step.pyError "IndexError: list index out of range"]
  | some c => (List.range (c - 1)).map (lineStepFor lns)

/-- The engine calls of lines 91-98 after the line loop:
`add_curve_loop(range(1, lines[0]), 1)`, `add_plane_surface([1], 1)`,
`synchronize()`, `generate(2)`, the extraction bridge, `clear()`,
`finalize()`.  Python's `range(1, lines[0])` is `[1, ..., lines[0] - 1]`.
These calls only run when the line loop completed, so `lines` is nonempty
here and `headD` agrees with the `lines[0]` the source reads again. -/
def tailEvents (lns : List ℕ) : List Event :=
  [Event.addCurveLoop (List.range' 1 (lns.headD 0 - 1)) 1,
   Event.addPlaneSurface [1] 1,
   Event.synchronize,
   Event.generate 2,
   Event.extract,
   Event.clear,
   Event.finalize]

/-- Lines 91-98 as body steps: each is one engine call. -/
def tailSteps (lns : List ℕ) : List Step :=
  (tailEvents lns).map Step.call

/-- The two calls before target-size resolution: `gmsh.initialize()` and
`gmsh.option.set_number("Mesh.Algorithm", FRONTAL_DELAUNAY_2D)`. -/
def preEvents : List Event :=
  [Event.init, Event.setNumber "Mesh.Algorithm" FRONTAL_DELAUNAY_2D]

/-- Lines 74-75 as body steps. -/
def preSteps : List Step := preEvents.map Step.call

/-- The full statement sequence of `frontal_delaunay_2d`, in source order:
session init and algorithm option, then default-size resolution (whose
numpy `TypeError` aborts the body), then point registration, the line
loop, and the curve-loop/surface/synchronize/generate/extract/teardown
tail. -/
def planSteps (edge_source : Boundary) (target_size : Option ℚ) : List Step :=
  preSteps ++
    match resolveTargetSize target_size (bounds edge_source.points) with
    | .error msg => [Step.pyError msg]
    | .ok ts =>
      pointSteps edge_source.points ts ++ lineSteps edge_source.lines ++
        tailSteps edge_source.lines

/-- `frontal_delaunay_2d(edge_source, target_size)` (lines 74-98): runs the
statement sequence against the engine oracle; on an uncaught exception the
error propagates to the caller, otherwise the mesh produced by the
extraction bridge is returned as-is.  The first component is the trace of
engine calls issued. -/
def frontal_delaunay_2d (eng : Engine) (edge_source : Boundary)
    (target_size : Option ℚ) : List Event × Except String Mesh :=
  ((runSteps eng (planSteps edge_source target_size)).1,
    match (runSteps eng (planSteps edge_source target_size)).2 with
    | some msg => Except.error msg
    | none => Except.ok eng.extraction)

/-- `delaunay_3d()` (lines 101-167): the body consists of a docstring
only, so the function issues no engine calls and falls through, returning
Python `None`. -/
def delaunay_3d : List Event × Option Mesh := ([], none)

/-- The default target size as the specification states it ("the maximum of
the boundary's bounding-box extents along each axis"); written from the
spec's words for comparison with the code's resolution. -/
def specDefaultTargetSize (pts : List (ℚ × ℚ × ℚ)) : ℚ :=
  max |(bounds pts).xmax - (bounds pts).xmin|
    (max |(bounds pts).ymax - (bounds pts).ymin|
      |(bounds pts).zmax - (bounds pts).zmin|)

/-- Discriminator: is this event a point registration? -/
def Event.isAddPoint : Event → Bool
  | .addPoint _ _ _ _ _ => true
  | _ => false

/-- Discriminator: is this event a line registration? -/
def Event.isAddLine : Event → Bool
  | .addLine _ _ _ => true
  | _ => false

/-- Discriminator: is this event a curve-loop registration? -/
def Event.isCurveLoop : Event → Bool
  | .addCurveLoop _ _ => true
  | _ => false

/-- Discriminator: is this event a plane-surface registration? -/
def Event.isPlaneSurface : Event → Bool
  | .addPlaneSurface _ _ => true
  | _ => false

/-- Discriminator: is this event the model synchronization? -/
def Event.isSync : Event → Bool
  | .synchronize => true
  | _ => false

/-- Discriminator: is this event a mesh-generation request? -/
def Event.isGen : Event → Bool
  | .generate _ => true
  | _ => false

/-- The tag of a line registration, if the event is one. -/
def Event.lineTag? : Event → Option ℕ
  | .addLine _ _ tag => some tag
  | _ => none

/-- The line event iteration `i` issues when both topology accesses are in
range (left in `getD` form; the theorems supply the in-range facts). -/
def lineEvent (lns : List ℕ) (i : ℕ) : Event :=
  Event.addLine (lns.getD (i + 1) 0 + 1) (lns.getD (i + 2) 0 + 1) (i + 1)

/-- A unit square boundary, encoded the way pyvista encodes a closed
polyline: the run header 5 followed by indices 0,1,2,3,0 (first index
repeated at the end). -/
def sqB : Boundary :=
  ⟨[(0, 0, 0), (1, 0, 0), (1, 1, 0), (0, 1, 0)], [5, 0, 1, 2, 3, 0]⟩

/-- A triangle boundary whose loop run lists each index once, without
repeating the first index at the end: `[3, 0, 1, 2]`. -/
def triB : Boundary :=
  ⟨[(0, 0, 0), (1, 0, 0), (0, 1, 0)], [3, 0, 1, 2]⟩

/-- The same triangle with the pyvista closed-polyline encoding
`[4, 0, 1, 2, 0]`. -/
def triLoopB : Boundary :=
  ⟨[(0, 0, 0), (1, 0, 0), (0, 1, 0)], [4, 0, 1, 2, 0]⟩

/-- A bridge output carrying no data arrays. -/
def emptyMesh : Mesh := ⟨[], [], []⟩

/-- A bridge output carrying one auxiliary cell-data array, as gmsh
extraction attaches when physical groups are present. -/
def taggedMesh : Mesh := ⟨[(0, 0, 0)], [[0, 1, 2]], ["gmsh:physical"]⟩

/-- An engine that accepts every call and extracts to `m`. -/
def allOkEngine (m : Mesh) : Engine := ⟨fun _ => true, m⟩

/-- An engine that accepts every call except mesh generation, which raises
(as gmsh does on an unmeshable model). -/
def genFailEngine : Engine :=
  ⟨fun e => match e with | .generate _ => false | _ => true, emptyMesh⟩

/-! ## Runner lemmas -/

theorem runSteps_nil (eng : Engine) : runSteps eng [] = ([], none) := rfl

theorem runSteps_cons_py (eng : Engine) (msg : String) (s : List Step) :
    runSteps eng (Step.pyError msg :: s) = ([], some msg) := rfl

theorem runSteps_cons_call (eng : Engine) (e : Event) (s : List Step) :
    runSteps eng (Step.call e :: s) =
      if eng.ok e then (e :: (runSteps eng s).1, (runSteps eng s).2)
      else ([e], some "gmsh exception") := rfl

theorem runSteps_append_ok (eng : Engine) (s₁ s₂ : List Step)
    (h : (runSteps eng s₁).2 = none) :
    runSteps eng (s₁ ++ s₂) =
      ((runSteps eng s₁).1 ++ (runSteps eng s₂).1, (runSteps eng s₂).2) := by
  induction s₁ with
  | nil => simp [runSteps]
  | cons st rest ih =>
    cases st with
    | pyError msg => simp [runSteps_cons_py] at h
    | call e =>
      by_cases he : eng.ok e
      · rw [List.cons_append, runSteps_cons_call, if_pos he]
        rw [runSteps_cons_call, if_pos he] at h ⊢
        simp only at h ⊢
        rw [ih h]
        simp
      · rw [runSteps_cons_call, if_neg he] at h
        simp at h

theorem runSteps_append_err (eng : Engine) (s₁ s₂ : List Step) (msg : String)
    (h : (runSteps eng s₁).2 = some msg) :
    runSteps eng (s₁ ++ s₂) = runSteps eng s₁ := by
  induction s₁ with
  | nil => simp [runSteps] at h
  | cons st rest ih =>
    cases st with
    | pyError m => rfl
    | call e =>
      by_cases he : eng.ok e
      · rw [List.cons_append, runSteps_cons_call, if_pos he]
        rw [runSteps_cons_call, if_pos he] at h ⊢
        simp only at h ⊢
        rw [ih h]
      · rw [List.cons_append, runSteps_cons_call, if_neg he,
          runSteps_cons_call, if_neg he]

/-- A run that finishes without error executed every step: each step is a
call the engine accepted. -/
theorem steps_all_ok_of_runSteps_ok (eng : Engine) (s : List Step)
    (h : (runSteps eng s).2 = none) :
    ∀ st ∈ s, ∃ e, st = Step.call e ∧ eng.ok e = true := by
  induction s with
  | nil => simp
  | cons st rest ih =>
    cases st with
    | pyError msg => simp [runSteps_cons_py] at h
    | call e =>
      by_cases he : eng.ok e
      · rw [runSteps_cons_call, if_pos he] at h
        simp only at h
        intro st hst
        rcases List.mem_cons.mp hst with rfl | hmem
        · exact ⟨e, rfl, he⟩
        · exact ih h st hmem
      · rw [runSteps_cons_call, if_neg he] at h
        simp at h

/-- A run that finishes without error issued exactly the calls of the step
list, in order. -/
theorem runSteps_trace_of_ok (eng : Engine) (s : List Step)
    (h : (runSteps eng s).2 = none) :
    (runSteps eng s).1 = s.filterMap Step.toEvent? := by
  induction s with
  | nil => simp [runSteps]
  | cons st rest ih =>
    cases st with
    | pyError msg => simp [runSteps_cons_py] at h
    | call e =>
      by_cases he : eng.ok e
      · rw [runSteps_cons_call, if_pos he] at h ⊢
        simp only at h ⊢
        rw [ih h, List.filterMap_cons]
        rfl
      · rw [runSteps_cons_call, if_neg he] at h
        simp at h

/-- Every event in a trace was planned: its call is in the step list. -/
theorem call_mem_of_mem_trace (eng : Engine) (s : List Step) (e : Event)
    (h : e ∈ (runSteps eng s).1) : Step.call e ∈ s := by
  induction s with
  | nil => simp [runSteps] at h
  | cons st rest ih =>
    cases st with
    | pyError msg => simp [runSteps_cons_py] at h
    | call e' =>
      by_cases he : eng.ok e'
      · rw [runSteps_cons_call, if_pos he] at h
        simp only at h
        rcases List.mem_cons.mp h with rfl | hmem
        · exact List.mem_cons_self _ _
        · exact List.mem_cons_of_mem _ (ih hmem)
      · rw [runSteps_cons_call, if_neg he] at h
        simp only at h
        rcases List.mem_cons.mp h with rfl | hmem
        · exact List.mem_cons_self _ _
        · simp at hmem

/-- Running a list of plain calls under an engine that accepts everything
issues them all and succeeds. -/
theorem runSteps_map_call (eng : Engine) (h : ∀ e, eng.ok e = true)
    (es : List Event) :
    runSteps eng (es.map Step.call) = (es, none) := by
  induction es with
  | nil => rfl
  | cons e rest ih =>
    rw [List.map_cons, runSteps_cons_call, if_pos (h e), ih]

/-! ## Structure of the planned step list -/

theorem filterMap_toEvent_map_call (es : List Event) :
    (es.map Step.call).filterMap Step.toEvent? = es := by
  induction es with
  | nil => rfl
  | cons e t ih => simp [List.filterMap_cons, Step.toEvent?, ih]

/-- Any call found among the line-loop steps is an `add_line` whose
endpoint tags are in-range topology entries shifted by one. -/
theorem call_mem_lineSteps {lns : List ℕ} {e : Event}
    (h : Step.call e ∈ lineSteps lns) :
    ∃ i a b, lns[i + 1]? = some a ∧ lns[i + 2]? = some b ∧
      i + 1 < lns.headD 0 ∧ e = Event.addLine (a + 1) (b + 1) (i + 1) := by
  unfold lineSteps at h
  cases hc : lns[0]? with
  | none => rw [hc] at h; simp at h
  | some c =>
    rw [hc] at h
    rcases List.mem_map.mp h with ⟨i, hi, hstep⟩
    have hic : i < c - 1 := List.mem_range.mp hi
    unfold lineStepFor at hstep
    cases h1 : lns[i + 1]? with
    | none => rw [h1] at hstep; cases h2 : lns[i + 2]? <;> rw [h2] at hstep <;> cases hstep
    | some a =>
      cases h2 : lns[i + 2]? with
      | none => rw [h1, h2] at hstep; cases hstep
      | some b =>
        rw [h1, h2] at hstep
        cases hstep
        have hd : lns.headD 0 = c := by
          cases lns with
          | nil => simp at hc
          | cons x xs => simp at hc; simp [hc]
        refine ⟨i, a, b, h1, h2, ?_, rfl⟩
        rw [hd]
        omega

/-- When both endpoint accesses of iteration `i` are in range, the step is
the call of `lineEvent`. -/
theorem lineStepFor_eq_call {lns : List ℕ} {i a b : ℕ}
    (h1 : lns[i + 1]? = some a) (h2 : lns[i + 2]? = some b) :
    lineStepFor lns i = Step.call (lineEvent lns i) := by
  unfold lineStepFor lineEvent
  rw [h1, h2]
  simp [List.getD, h1, h2]

/-- With the whole first run in range, the line loop is a list of plain
calls of the `lineEvent`s. -/
theorem lineSteps_inrange (lns : List ℕ) (c : ℕ) (hc : lns[0]? = some c)
    (hlen : c < lns.length) :
    lineSteps lns = ((List.range (c - 1)).map (lineEvent lns)).map Step.call := by
  unfold lineSteps
  rw [hc, List.map_map]
  refine List.map_congr_left ?_
  intro i hi
  have hic : i < c - 1 := List.mem_range.mp hi
  have h1 : i + 1 < lns.length := by omega
  have h2 : i + 2 < lns.length := by omega
  exact lineStepFor_eq_call (List.getElem?_eq_getElem h1) (List.getElem?_eq_getElem h2)

/-- Decomposition of a successful run of `frontal_delaunay_2d`'s body: the
size resolution succeeded, the topology header was read, every line-loop
access was in range, and the trace is the four segments in order. -/
theorem plan_ok_decomp (eng : Engine) (b : Boundary) (ts : Option ℚ)
    (h : (runSteps eng (planSteps b ts)).2 = none) :
    ∃ t c, resolveTargetSize ts (bounds b.points) = Except.ok t ∧
      b.lines[0]? = some c ∧
      (∀ i ∈ List.range (c - 1),
        lineStepFor b.lines i = Step.call (lineEvent b.lines i)) ∧
      (runSteps eng (planSteps b ts)).1 =
        preEvents ++ pointEvents b.points t ++
          (List.range (c - 1)).map (lineEvent b.lines) ++ tailEvents b.lines := by
  have hall := steps_all_ok_of_runSteps_ok eng _ h
  cases hres : resolveTargetSize ts (bounds b.points) with
  | error msg =>
    exfalso
    have hmem : Step.pyError msg ∈ planSteps b ts := by
      unfold planSteps
      rw [hres]
      simp
    rcases hall _ hmem with ⟨e, he, _⟩
    cases he
  | ok t =>
    cases hc : b.lines[0]? with
    | none =>
      exfalso
      have hmem : Step.pyError "IndexError: list index out of range" ∈
          planSteps b ts := by
        unfold planSteps lineSteps
        rw [hres, hc]
        simp
      rcases hall _ hmem with ⟨e, he, _⟩
      cases he
    | some c =>
      have hin : ∀ i ∈ List.range (c - 1),
          lineStepFor b.lines i = Step.call (lineEvent b.lines i) := by
        intro i hi
        have hls : lineStepFor b.lines i ∈ lineSteps b.lines := by
          unfold lineSteps
          rw [hc]
          exact List.mem_map_of_mem _ hi
        have hmem : lineStepFor b.lines i ∈ planSteps b ts := by
          unfold planSteps
          rw [hres]
          simp [hls]
        rcases hall _ hmem with ⟨e, he, _⟩
        unfold lineStepFor at he ⊢
        cases h1 : b.lines[i + 1]? with
        | none =>
          rw [h1] at he
          cases h2 : b.lines[i + 2]? <;> rw [h2] at he <;> cases he
        | some a =>
          cases h2 : b.lines[i + 2]? with
          | none => rw [h1, h2] at he; cases he
          | some b' =>
            unfold lineEvent
            simp [List.getD, h1, h2]
      refine ⟨t, c, by simp [hres], by simp [hc], hin, ?_⟩
      have hlines : lineSteps b.lines =
          ((List.range (c - 1)).map (lineEvent b.lines)).map Step.call := by
        unfold lineSteps
        rw [hc, List.map_map]
        exact List.map_congr_left hin
      have htr := runSteps_trace_of_ok eng _ h
      rw [htr]
      unfold planSteps
      rw [hres, hlines]
      unfold preSteps pointSteps tailSteps
      rw [List.filterMap_append, List.filterMap_append, List.filterMap_append,
        filterMap_toEvent_map_call, filterMap_toEvent_map_call,
        filterMap_toEvent_map_call, filterMap_toEvent_map_call]
      simp [List.append_assoc]

/-! ## Helpers about the adapter's result -/

theorem frontal_fst (eng : Engine) (b : Boundary) (ts : Option ℚ) :
    (frontal_delaunay_2d eng b ts).1 = (runSteps eng (planSteps b ts)).1 := rfl

theorem frontal_ok_iff (eng : Engine) (b : Boundary) (ts : Option ℚ) (m : Mesh) :
    (frontal_delaunay_2d eng b ts).2 = Except.ok m ↔
      (runSteps eng (planSteps b ts)).2 = none ∧ m = eng.extraction := by
  unfold frontal_delaunay_2d
  cases h : (runSteps eng (planSteps b ts)).2 with
  | none => simp [eq_comm]
  | some msg => simp

theorem headD_eq_of_getElem? {l : List ℕ} {c : ℕ} (h : l[0]? = some c) :
    l.headD 0 = c := by
  cases l with
  | nil => simp at h
  | cons x xs => simp at h; simp [h]

/-- Truncating the topology array to its first run does not change the line
loop: every access the loop makes lies inside that run. -/
theorem lineSteps_take (l : List ℕ) :
    lineSteps (l.take (l.headD 0 + 1)) = lineSteps l := by
  cases l with
  | nil => rfl
  | cons c xs =>
    show lineSteps ((c :: xs).take (c + 1)) = _
    rw [List.take_succ_cons]
    unfold lineSteps
    simp only [List.getElem?_cons_zero]
    refine List.map_congr_left ?_
    intro i hi
    have hic : i < c - 1 := List.mem_range.mp hi
    unfold lineStepFor
    have e1 : (c :: xs.take c)[i + 1]? = (c :: xs)[i + 1]? := by
      rw [← List.take_succ_cons]
      exact List.getElem?_take_of_lt (by omega)
    have e2 : (c :: xs.take c)[i + 2]? = (c :: xs)[i + 2]? := by
      rw [← List.take_succ_cons]
      exact List.getElem?_take_of_lt (by omega)
    rw [e1, e2]

/-- Truncating the topology array to its first run does not change the
curve-loop/surface/teardown tail, which reads only `lines[0]`. -/
theorem tailSteps_take (l : List ℕ) :
    tailSteps (l.take (l.headD 0 + 1)) = tailSteps l := by
  unfold tailSteps tailEvents
  cases l <;> simp

/-- The whole planned body reads the topology array only inside its first
run `[count, idx_0, ..., idx_(count-1)]`. -/
theorem planSteps_take (b : Boundary) (ts : Option ℚ) :
    planSteps ⟨b.points, b.lines.take (b.lines.headD 0 + 1)⟩ ts =
      planSteps b ts := by
  unfold planSteps
  cases hres : resolveTargetSize ts (bounds b.points) with
  | error msg => rfl
  | ok t => rw [lineSteps_take, tailSteps_take]

/-- C10: `frontal_delaunay_2d` reads only the first run of the flat
topology array: its engine calls and result are unchanged when every entry
after the first run's `count + 1` entries is dropped, so later loop runs
are silently ignored and contribute no engine entities. -/
theorem frontal_delaunay_2d_only_first_run (eng : Engine) (b : Boundary)
    (ts : Option ℚ) :
    frontal_delaunay_2d eng b ts =
      frontal_delaunay_2d eng ⟨b.points, b.lines.take (b.lines.headD 0 + 1)⟩ ts := by
  unfold frontal_delaunay_2d
  rw [planSteps_take]

/-- C9: `delaunay_3d` has an empty body (docstring only): it issues no
engine calls and returns Python `None` instead of a mesh. -/
theorem delaunay_3d_returns_none : delaunay_3d = ([], none) := rfl

/-- C2 (code bug): with `target_size` omitted, the adapter never computes
the bounding-box default.  `np.max(a, b, c)` passes the y-extent as numpy's
`axis` and the z-extent as `out`, so the call raises `TypeError` right
after the two session-setup calls, while the documented default (the
maximum axis extent, per the spec and the source docstring) would be `1`
for the unit square. -/
theorem frontal_delaunay_2d_default_size_raises :
    (frontal_delaunay_2d (allOkEngine emptyMesh) sqB none).2 =
        Except.error
          "TypeError: numpy float64 object cannot be interpreted as an integer" ∧
      (frontal_delaunay_2d (allOkEngine emptyMesh) sqB none).1 =
        [Event.init, Event.setNumber "Mesh.Algorithm" 6] ∧
      specDefaultTargetSize sqB.points = 1 :=
  ⟨rfl, by decide, by norm_num [specDefaultTargetSize, bounds, sqB]⟩

/-- If an event reached the trace of `s₁ ++ s₂` but its call is not in
`s₁`, then the whole of `s₁` executed without error. -/
theorem run_prefix_ok_of_mem (eng : Engine) (s₁ s₂ : List Step) (e : Event)
    (h : e ∈ (runSteps eng (s₁ ++ s₂)).1) (hn : Step.call e ∉ s₁) :
    (runSteps eng s₁).2 = none := by
  cases h2 : (runSteps eng s₁).2 with
  | none => rfl
  | some msg =>
    rw [runSteps_append_err eng s₁ s₂ msg h2] at h
    exact absurd (call_mem_of_mem_trace eng s₁ e h) hn

/-- C1 (counterexample): when the engine raises during mesh generation,
the error propagates to the caller with neither `gmsh.clear` nor
`gmsh.finalize` having been issued — the session is NOT torn down on this
exit path, because the source has no try/finally around the engine calls. -/
theorem frontal_delaunay_2d_no_teardown_on_generate_failure :
    (frontal_delaunay_2d genFailEngine sqB (some 1)).2 =
        Except.error "gmsh exception" ∧
      Event.generate 2 ∈ (frontal_delaunay_2d genFailEngine sqB (some 1)).1 ∧
      Event.clear ∉ (frontal_delaunay_2d genFailEngine sqB (some 1)).1 ∧
      Event.finalize ∉ (frontal_delaunay_2d genFailEngine sqB (some 1)).1 :=
  ⟨rfl, by decide, by decide, by decide⟩

/-- C1 (amended): teardown happens only on the success path.  `gmsh.clear`
is issued only when every call up to and including extraction succeeded,
and a successful return always ends with extraction, `gmsh.clear`,
`gmsh.finalize`; when an earlier step raises, the error propagates without
any teardown call. -/
theorem frontal_delaunay_2d_teardown_on_success_only (eng : Engine)
    (b : Boundary) (ts : Option ℚ) (m : Mesh) :
    (Event.clear ∈ (frontal_delaunay_2d eng b ts).1 →
      Event.extract ∈ (frontal_delaunay_2d eng b ts).1 ∧
        eng.ok Event.extract = true) ∧
    ((frontal_delaunay_2d eng b ts).2 = Except.ok m →
      ∃ u, (frontal_delaunay_2d eng b ts).1 =
        u ++ [Event.extract, Event.clear, Event.finalize]) := by
  constructor
  · intro hcl
    rw [frontal_fst] at hcl ⊢
    cases hres : resolveTargetSize ts (bounds b.points) with
    | error msg =>
      exfalso
      have hmem := call_mem_of_mem_trace eng _ _ hcl
      unfold planSteps at hmem
      rw [hres] at hmem
      simp [preSteps, preEvents] at hmem
    | ok t =>
      have hplan : planSteps b ts =
          (preSteps ++ (pointSteps b.points t ++ lineSteps b.lines ++
            [Step.call (Event.addCurveLoop
                (List.range' 1 (b.lines.headD 0 - 1)) 1),
             Step.call (Event.addPlaneSurface [1] 1),
             Step.call Event.synchronize,
             Step.call (Event.generate 2),
             Step.call Event.extract])) ++
            [Step.call Event.clear, Step.call Event.finalize] := by
        unfold planSteps tailSteps tailEvents
        rw [hres]
        simp [List.append_assoc]
      rw [hplan] at hcl
      have hnotin : Step.call Event.clear ∉
          preSteps ++ (pointSteps b.points t ++ lineSteps b.lines ++
            [Step.call (Event.addCurveLoop
                (List.range' 1 (b.lines.headD 0 - 1)) 1),
             Step.call (Event.addPlaneSurface [1] 1),
             Step.call Event.synchronize,
             Step.call (Event.generate 2),
             Step.call Event.extract]) := by
        intro hmem
        simp only [List.mem_append] at hmem
        rcases hmem with h' | (h' | h') | h'
        · simp [preSteps, preEvents] at h'
        · simp [pointSteps, pointEvents] at h'
        · rcases call_mem_lineSteps h' with ⟨i, a, b', _, _, _, he⟩
          cases he
        · simp at h'
      have hok1 := run_prefix_ok_of_mem eng _ _ _ hcl hnotin
      have hall := steps_all_ok_of_runSteps_ok eng _ hok1
      have hExtMem : Step.call Event.extract ∈
          preSteps ++ (pointSteps b.points t ++ lineSteps b.lines ++
            [Step.call (Event.addCurveLoop
                (List.range' 1 (b.lines.headD 0 - 1)) 1),
             Step.call (Event.addPlaneSurface [1] 1),
             Step.call Event.synchronize,
             Step.call (Event.generate 2),
             Step.call Event.extract]) := by
        simp
      constructor
      · rw [hplan, runSteps_append_ok eng _ _ hok1]
        simp only [List.mem_append]
        left
        rw [runSteps_trace_of_ok eng _ hok1]
        exact List.mem_filterMap.mpr ⟨Step.call Event.extract, hExtMem, rfl⟩
      · rcases hall _ hExtMem with ⟨e, he, hoke⟩
        cases he
        exact hoke
  · intro hok
    have hrun := ((frontal_ok_iff eng b ts m).mp hok).1
    rcases plan_ok_decomp eng b ts hrun with ⟨t, c, _, _, _, htrace⟩
    rw [frontal_fst, htrace]
    refine ⟨preEvents ++ pointEvents b.points t ++
      (List.range (c - 1)).map (lineEvent b.lines) ++
      [Event.addCurveLoop (List.range' 1 (b.lines.headD 0 - 1)) 1,
       Event.addPlaneSurface [1] 1, Event.synchronize, Event.generate 2], ?_⟩
    unfold tailEvents
    simp [List.append_assoc]

/-- C1 (witness): at the all-accepting engine on the unit square, the
teardown-only-on-success theorem applies: `gmsh.clear` is in the trace, so
extraction succeeded and is in the trace, and the successful return ends
with extract/clear/finalize. -/
theorem frontal_delaunay_2d_teardown_on_success_only_witness :
    (Event.extract ∈ (frontal_delaunay_2d (allOkEngine emptyMesh) sqB (some 1)).1 ∧
      (allOkEngine emptyMesh).ok Event.extract = true) ∧
    ∃ u, (frontal_delaunay_2d (allOkEngine emptyMesh) sqB (some 1)).1 =
      u ++ [Event.extract, Event.clear, Event.finalize] :=
  ⟨(frontal_delaunay_2d_teardown_on_success_only (allOkEngine emptyMesh) sqB
      (some 1) emptyMesh).1 (by decide),
   (frontal_delaunay_2d_teardown_on_success_only (allOkEngine emptyMesh) sqB
      (some 1) emptyMesh).2 rfl⟩

/-- C5 (counterexample): the adapter does not clear auxiliary data arrays:
when the extraction bridge attaches a `gmsh:physical` array, the returned
mesh still carries it. -/
theorem frontal_delaunay_2d_returns_bridge_arrays :
    (frontal_delaunay_2d (allOkEngine taggedMesh) sqB (some 1)).2 =
        Except.ok taggedMesh ∧
      taggedMesh.dataArrays = ["gmsh:physical"] :=
  ⟨rfl, rfl⟩

/-- C5 (amended): the mesh returned on success is exactly the extraction
bridge's output, unmodified — no field/attribute clearing is performed
between extraction and return. -/
theorem frontal_delaunay_2d_extraction_returned_unmodified (eng : Engine)
    (b : Boundary) (ts : Option ℚ) (m : Mesh)
    (h : (frontal_delaunay_2d eng b ts).2 = Except.ok m) : m = eng.extraction :=
  ((frontal_ok_iff eng b ts m).mp h).2

/-- C5 (witness): the amended theorem applies at the all-accepting engine
whose bridge attaches no arrays. -/
theorem frontal_delaunay_2d_extraction_returned_unmodified_witness :
    emptyMesh = (allOkEngine emptyMesh).extraction :=
  frontal_delaunay_2d_extraction_returned_unmodified (allOkEngine emptyMesh)
    sqB (some 1) emptyMesh rfl

/-! ## Helpers for filterMap over mapped call lists -/

theorem filterMap_eq_map_of_some {α β γ : Type} (l : List α) (f : β → Option γ)
    (g : α → β) (m : α → γ) (h : ∀ x ∈ l, f (g x) = some (m x)) :
    (l.map g).filterMap f = l.map m := by
  induction l with
  | nil => rfl
  | cons a tl ih =>
    simp only [List.map_cons, List.filterMap_cons, h a (List.mem_cons_self a tl)]
    rw [ih (fun x hx => h x (List.mem_cons_of_mem a hx))]

theorem filterMap_eq_nil_of_none {α β γ : Type} (l : List α) (f : β → Option γ)
    (g : α → β) (h : ∀ x ∈ l, f (g x) = none) : (l.map g).filterMap f = [] := by
  induction l with
  | nil => rfl
  | cons a tl ih =>
    simp only [List.map_cons, List.filterMap_cons, h a (List.mem_cons_self a tl)]
    exact ih (fun x hx => h x (List.mem_cons_of_mem a hx))

/-- C4: round-trip of the 0-based-to-1-based index translation: every line
entity the adapter registers carries tag `i + 1` for some loop iteration
`i`, and connects engine point tags equal to the topology entries at
positions `i + 1` and `i + 2` of the flat cell array, each shifted by one —
on every engine and on every execution path. -/
theorem frontal_delaunay_2d_line_tags_round_trip (eng : Engine) (b : Boundary)
    (ts : Option ℚ) (x y tg : ℕ)
    (h : Event.addLine x y tg ∈ (frontal_delaunay_2d eng b ts).1) :
    1 ≤ tg ∧ ∃ a a', b.lines[tg]? = some a ∧ b.lines[tg + 1]? = some a' ∧
      x = a + 1 ∧ y = a' + 1 := by
  rw [frontal_fst] at h
  have hcall := call_mem_of_mem_trace eng _ _ h
  unfold planSteps at hcall
  cases hres : resolveTargetSize ts (bounds b.points) with
  | error msg =>
    rw [hres] at hcall
    exfalso
    simp [preSteps, preEvents] at hcall
  | ok t =>
    rw [hres] at hcall
    simp only [List.mem_append] at hcall
    rcases hcall with h' | (h' | h') | h'
    · exfalso
      simp [preSteps, preEvents] at h'
    · exfalso
      simp [pointSteps, pointEvents] at h'
    · rcases call_mem_lineSteps h' with ⟨i, a, b', h1, h2, _, he⟩
      injection he with hx hy ht
      subst hx hy ht
      exact ⟨by omega, a, b', h1, h2, rfl, rfl⟩
    · exfalso
      simp [tailSteps, tailEvents] at h'

/-- C4 (witness): on the unit-square run, the registered line with tag 1
connects tags 1 and 2, which are the topology entries at positions 1 and 2
(namely 0 and 1) plus one. -/
theorem frontal_delaunay_2d_line_tags_round_trip_witness :
    1 ≤ 1 ∧ ∃ a a', sqB.lines[1]? = some a ∧ sqB.lines[1 + 1]? = some a' ∧
      1 = a + 1 ∧ 2 = a' + 1 :=
  frontal_delaunay_2d_line_tags_round_trip (allOkEngine emptyMesh) sqB (some 1)
    1 2 1 (by decide)

/-- C7: with a given target size and an engine that accepts its calls, the
adapter first issues session init and the algorithm option, then registers
exactly one point entity per boundary point, tagged `1..N` in input order,
each carrying the target size as its mesh-density hint, and no point
registration occurs anywhere later — in particular all point entities
precede every line entity. -/
theorem frontal_delaunay_2d_points_first (eng : Engine) (b : Boundary) (t : ℚ)
    (hE : ∀ e, eng.ok e = true) :
    ∃ v, (frontal_delaunay_2d eng b (some t)).1 =
        (Event.init :: Event.setNumber "Mesh.Algorithm" FRONTAL_DELAUNAY_2D ::
          b.points.enum.map (fun ip =>
            Event.addPoint ip.2.1 ip.2.2.1 ip.2.2.2 t (ip.1 + 1))) ++ v ∧
      ∀ e ∈ v, Event.isAddPoint e = false := by
  rw [frontal_fst]
  have hplan : planSteps b (some t) =
      ((preEvents ++ pointEvents b.points t).map Step.call) ++
        (lineSteps b.lines ++ tailSteps b.lines) := by
    show preSteps ++ (pointSteps b.points t ++ lineSteps b.lines ++
      tailSteps b.lines) = _
    simp [preSteps, pointSteps, List.map_append, List.append_assoc]
  rw [hplan]
  have h1 : (runSteps eng
      ((preEvents ++ pointEvents b.points t).map Step.call)).2 = none := by
    rw [runSteps_map_call eng hE]
  rw [runSteps_append_ok eng _ _ h1]
  refine ⟨(runSteps eng (lineSteps b.lines ++ tailSteps b.lines)).1, ?_, ?_⟩
  · simp only [runSteps_map_call eng hE]
    simp [preEvents, pointEvents]
  · intro e he
    have hc := call_mem_of_mem_trace eng _ _ he
    rcases List.mem_append.mp hc with h' | h'
    · rcases call_mem_lineSteps h' with ⟨i, a, b', _, _, _, rfl⟩
      rfl
    · have hmem : e ∈ tailEvents b.lines := by
        rcases List.mem_map.mp h' with ⟨e', he', heq⟩
        injection heq with h3
        rwa [← h3]
      simp only [tailEvents, List.mem_cons, List.not_mem_nil, or_false] at hmem
      rcases hmem with rfl | rfl | rfl | rfl | rfl | rfl | rfl <;> rfl

/-- C7 (witness): the point-registration-first theorem applied to the unit
square with target size 1 under the all-accepting engine. -/
theorem frontal_delaunay_2d_points_first_witness :
    ∃ v, (frontal_delaunay_2d (allOkEngine emptyMesh) sqB (some 1)).1 =
        (Event.init :: Event.setNumber "Mesh.Algorithm" FRONTAL_DELAUNAY_2D ::
          sqB.points.enum.map (fun ip =>
            Event.addPoint ip.2.1 ip.2.2.1 ip.2.2.2 1 (ip.1 + 1))) ++ v ∧
      ∀ e ∈ v, Event.isAddPoint e = false :=
  frontal_delaunay_2d_points_first (allOkEngine emptyMesh) sqB 1 (fun _ => rfl)

/-- C3 (counterexample): for the triangle whose loop run `[3, 0, 1, 2]`
does not repeat the first index at the end, the adapter registers only the
two consecutive-pair lines (tags 1, 2); no closing edge from the last
listed point (engine tag 3) back to the first (engine tag 1) is
registered, so the registered lines do not form a closed loop. -/
theorem frontal_delaunay_2d_no_implicit_closing_edge :
    ((frontal_delaunay_2d (allOkEngine emptyMesh) triB (some 1)).1).filter
        Event.isAddLine = [Event.addLine 1 2 1, Event.addLine 2 3 2] ∧
      Event.addLine 3 1 3 ∉
        (frontal_delaunay_2d (allOkEngine emptyMesh) triB (some 1)).1 :=
  ⟨by decide, by decide⟩

/-- C3 (amended): for a loop run headed by `count`, the adapter registers
exactly `count - 1` line entities, namely one per consecutive pair of
entries of the topology array (tags `1..count-1` in traversal order) — no
implicit closing edge is added, so the lines close into a loop only when
the input itself repeats the first index as the run's last entry. -/
theorem frontal_delaunay_2d_lines_consecutive_pairs (eng : Engine)
    (b : Boundary) (t : ℚ) (c : ℕ) (hE : ∀ e, eng.ok e = true)
    (hc : b.lines[0]? = some c) (hlen : c < b.lines.length) :
    ((frontal_delaunay_2d eng b (some t)).1).filter Event.isAddLine =
      (List.range (c - 1)).map (lineEvent b.lines) := by
  rw [frontal_fst]
  have hplan : planSteps b (some t) =
      (preEvents ++ pointEvents b.points t ++
        (List.range (c - 1)).map (lineEvent b.lines) ++
        tailEvents b.lines).map Step.call := by
    show preSteps ++ (pointSteps b.points t ++ lineSteps b.lines ++
      tailSteps b.lines) = _
    rw [lineSteps_inrange b.lines c hc hlen]
    simp [preSteps, pointSteps, tailSteps, List.map_append, List.append_assoc]
  rw [hplan, runSteps_map_call eng hE]
  simp only
  rw [List.filter_append, List.filter_append, List.filter_append]
  have hpre : preEvents.filter Event.isAddLine = [] := rfl
  have hpt : (pointEvents b.points t).filter Event.isAddLine = [] := by
    rw [List.filter_eq_nil_iff]
    intro e he
    rcases List.mem_map.mp he with ⟨ip, _, rfl⟩
    simp [Event.isAddLine]
  have hln : ((List.range (c - 1)).map (lineEvent b.lines)).filter
      Event.isAddLine = (List.range (c - 1)).map (lineEvent b.lines) := by
    rw [List.filter_eq_self]
    intro e he
    rcases List.mem_map.mp he with ⟨i, _, rfl⟩
    rfl
  have htl : (tailEvents b.lines).filter Event.isAddLine = [] := rfl
  rw [hpre, hpt, hln, htl]
  simp

/-- C3 (witness): the consecutive-pairs theorem applied to the triangle in
pyvista's closed-polyline encoding `[4, 0, 1, 2, 0]`: the three registered
lines are exactly the consecutive pairs, the last one closing the loop
because the input repeats index 0. -/
theorem frontal_delaunay_2d_lines_consecutive_pairs_witness :
    ((frontal_delaunay_2d (allOkEngine emptyMesh) triLoopB (some 1)).1).filter
        Event.isAddLine = (List.range (4 - 1)).map (lineEvent triLoopB.lines) :=
  frontal_delaunay_2d_lines_consecutive_pairs (allOkEngine emptyMesh) triLoopB
    1 4 (fun _ => rfl) rfl (by decide)

/-- C8: on every successful call, the trace ends with exactly one curve
loop referencing the tags of all registered line entities in order
(`range(1, lines[0])`), then exactly one plane surface bounded by that
loop, then synchronize, then the 2D generation request, then extraction
and teardown; no curve loop, plane surface, synchronization, or generation
request occurs earlier in the trace. -/
theorem frontal_delaunay_2d_success_sequence (eng : Engine) (b : Boundary)
    (ts : Option ℚ) (m : Mesh)
    (h : (frontal_delaunay_2d eng b ts).2 = Except.ok m) :
    ∃ u c, b.lines[0]? = some c ∧
      (frontal_delaunay_2d eng b ts).1 =
        u ++ [Event.addCurveLoop (List.range' 1 (c - 1)) 1,
          Event.addPlaneSurface [1] 1, Event.synchronize, Event.generate 2,
          Event.extract, Event.clear, Event.finalize] ∧
      (∀ e ∈ u, Event.isCurveLoop e = false ∧ Event.isPlaneSurface e = false ∧
        Event.isSync e = false ∧ Event.isGen e = false) ∧
      u.filterMap Event.lineTag? = List.range' 1 (c - 1) := by
  have hrun := ((frontal_ok_iff eng b ts m).mp h).1
  rcases plan_ok_decomp eng b ts hrun with ⟨t, c, _, hc, _, htrace⟩
  have hd : b.lines.headD 0 = c := headD_eq_of_getElem? hc
  refine ⟨preEvents ++ pointEvents b.points t ++
    (List.range (c - 1)).map (lineEvent b.lines), c, hc, ?_, ?_, ?_⟩
  · rw [frontal_fst, htrace]
    unfold tailEvents
    rw [hd]
  · intro e he
    simp only [List.mem_append] at he
    rcases he with (he | he) | he
    · simp only [preEvents, List.mem_cons, List.not_mem_nil, or_false] at he
      rcases he with rfl | rfl
      · exact ⟨rfl, rfl, rfl, rfl⟩
      · exact ⟨rfl, rfl, rfl, rfl⟩
    · rcases List.mem_map.mp he with ⟨ip, _, rfl⟩
      exact ⟨rfl, rfl, rfl, rfl⟩
    · rcases List.mem_map.mp he with ⟨i, _, rfl⟩
      exact ⟨rfl, rfl, rfl, rfl⟩
  · rw [List.filterMap_append, List.filterMap_append]
    have h1 : preEvents.filterMap Event.lineTag? = [] := rfl
    have h2 : (pointEvents b.points t).filterMap Event.lineTag? = [] := by
      unfold pointEvents
      exact filterMap_eq_nil_of_none _ _ _ (fun ip _ => rfl)
    have h3 : ((List.range (c - 1)).map (lineEvent b.lines)).filterMap
        Event.lineTag? = List.range' 1 (c - 1) := by
      rw [filterMap_eq_map_of_some (List.range (c - 1)) Event.lineTag?
        (lineEvent b.lines) (fun i => i + 1) (fun i _ => rfl)]
      rw [List.range'_eq_map_range]
      exact List.map_congr_left (fun a _ => Nat.add_comm a 1)
    rw [h1, h2, h3]
    simp

/-- C8 (witness): the success-sequence theorem applied to the unit-square
run under the all-accepting engine. -/
theorem frontal_delaunay_2d_success_sequence_witness :
    ∃ u c, sqB.lines[0]? = some c ∧
      (frontal_delaunay_2d (allOkEngine emptyMesh) sqB (some 1)).1 =
        u ++ [Event.addCurveLoop (List.range' 1 (c - 1)) 1,
          Event.addPlaneSurface [1] 1, Event.synchronize, Event.generate 2,
          Event.extract, Event.clear, Event.finalize] ∧
      (∀ e ∈ u, Event.isCurveLoop e = false ∧ Event.isPlaneSurface e = false ∧
        Event.isSync e = false ∧ Event.isGen e = false) ∧
      u.filterMap Event.lineTag? = List.range' 1 (c - 1) :=
  frontal_delaunay_2d_success_sequence (allOkEngine emptyMesh) sqB (some 1)
    emptyMesh rfl
